import Mathlib

/-!
Shallow embedding of the FIFO crypto tax calculator
(src/backend/calculator/tax_calculator.py) and proofs about it.

Modelling conventions:
* Monetary and quantity values are rationals (the Python code uses floats
  with an explicit 1e-8 tolerance; rational arithmetic realises the same
  comparisons exactly).
* Dates are rationals measured in days, so that the Python expression
  (sale_date - purchase_date).days is the floor of the difference.
* The Python deque of lots is a list whose head is the front of the queue.
* The diagnostic strings appended to self.errors are modelled by an
  inductive type with one constructor per message template, carrying the
  interpolated values.
* The summary dict is a structure; the keys that the empty-gains branch of
  _generate_summary omits are Option-valued and none in that branch.
-/

namespace TaxCalc

/-- Tolerance used by the source for float comparisons (0.00000001). -/
def eps : ℚ := 1 / 100000000

/-- A transaction record as produced by the parser (dict keys as fields). -/
structure Transaction where
  date : ℚ
  type : String
  symbol : String
  amount : ℚ
  price_per_unit : ℚ
  price_usd : ℚ
  fee_usd : ℚ
deriving DecidableEq, Repr

/-- TaxLot: a single purchase lot (class TaxLot in the source). -/
structure TaxLot where
  date : ℚ
  amount : ℚ
  original_amount : ℚ
  price_per_unit : ℚ
  symbol : String
  cost_basis : ℚ
deriving DecidableEq, Repr

/-- Constructor TaxLot(date, amount, price_per_unit, symbol). -/
def mkTaxLot (date amount price_per_unit : ℚ) (symbol : String) : TaxLot :=
  { date := date, amount := amount, original_amount := amount,
    price_per_unit := price_per_unit, symbol := symbol,
    cost_basis := amount * price_per_unit }

/-- CapitalGain: one realized gain/loss record (class CapitalGain). -/
structure CapitalGain where
  sale_date : ℚ
  purchase_date : ℚ
  symbol : String
  amount : ℚ
  cost_basis : ℚ
  proceeds : ℚ
  gain_loss : ℚ
  term : String
  holding_days : Int
deriving DecidableEq, Repr

/-- Constructor CapitalGain(...): holding_days is computed inside the
constructor as (sale_date - purchase_date).days, i.e. the floor of the
day difference. -/
def mkCapitalGain (sale_date purchase_date : ℚ) (symbol : String)
    (amount cost_basis proceeds gain_loss : ℚ) (term : String) : CapitalGain :=
  { sale_date := sale_date, purchase_date := purchase_date, symbol := symbol,
    amount := amount, cost_basis := cost_basis, proceeds := proceeds,
    gain_loss := gain_loss, term := term,
    holding_days := ⌊sale_date - purchase_date⌋ }

/-- One constructor per f-string template appended to self.errors. -/
inductive TaxError where
  | unknownType (ty : String)
  | noLots (remaining : ℚ) (symbol : String) (sale_date : ℚ)
  | symbolMismatch (sellSymbol lotSymbol : String)
deriving DecidableEq, Repr

/-- Mutable state of a FIFOTaxCalculator instance. -/
structure FIFOTaxCalculator where
  lots : List TaxLot
  capital_gains : List CapitalGain
  errors : List TaxError
deriving DecidableEq, Repr

/-- A freshly constructed calculator (the __init__ method). -/
def emptyCalculator : FIFOTaxCalculator :=
  { lots := [], capital_gains := [], errors := [] }

/-- Holding-period classification: term = 'long' if holding_days > 365
else 'short' (line 121 of the source). -/
def termOf (holding_days : Int) : String :=
  if holding_days > 365 then "long" else "short"

/-- The _process_buy method: append a new lot to the ledger. -/
def process_buy (c : FIFOTaxCalculator) (t : Transaction) : FIFOTaxCalculator :=
  { c with lots := c.lots ++ [mkTaxLot t.date t.amount t.price_per_unit t.symbol] }

/-- The while-loop of _process_sell, with explicit fuel (structural
recursion); process_sell supplies enough fuel, and sellLoop_fuel_irrelevant
below proves any fuel of at least lots.length + 2 gives the same result,
which is the termination argument for the source loop. -/
def sellLoop (fuel : Nat) (sale_date sale_price_per_unit : ℚ) (symbol : String)
    (remaining_to_sell : ℚ) (c : FIFOTaxCalculator) : FIFOTaxCalculator :=
  match fuel with
  | 0 => c
  | fuel + 1 =>
    if remaining_to_sell ≤ eps then c
    else
      match c.lots with
      | [] =>
        { c with errors :=
            c.errors ++ [TaxError.noLots remaining_to_sell symbol sale_date] }
      | oldest_lot :: rest =>
        if oldest_lot.symbol ≠ symbol then
          sellLoop fuel sale_date sale_price_per_unit symbol remaining_to_sell
            { c with
              lots := rest,
              errors := c.errors ++ [TaxError.symbolMismatch symbol oldest_lot.symbol] }
        else
          let amount_from_lot := min remaining_to_sell oldest_lot.amount
          let cost_basis := amount_from_lot * oldest_lot.price_per_unit
          let proceeds := amount_from_lot * sale_price_per_unit
          let gain_loss := proceeds - cost_basis
          let holding_days := ⌊sale_date - oldest_lot.date⌋
          let capital_gain := mkCapitalGain sale_date oldest_lot.date symbol
            amount_from_lot cost_basis proceeds gain_loss (termOf holding_days)
          let lot' : TaxLot := { oldest_lot with amount := oldest_lot.amount - amount_from_lot }
          sellLoop fuel sale_date sale_price_per_unit symbol
            (remaining_to_sell - amount_from_lot)
            { c with
              lots := if lot'.amount < eps then rest else lot' :: rest,
              capital_gains := c.capital_gains ++ [capital_gain] }

/-- The _process_sell method. -/
def process_sell (c : FIFOTaxCalculator) (t : Transaction) : FIFOTaxCalculator :=
  sellLoop (c.lots.length + 2) t.date t.price_per_unit t.symbol t.amount c

/-- The process_transaction method: dispatch on the type string. -/
def process_transaction (c : FIFOTaxCalculator) (t : Transaction) : FIFOTaxCalculator :=
  if t.type = "buy" then process_buy c t
  else if t.type = "sell" then process_sell c t
  else { c with errors := c.errors ++ [TaxError.unknownType t.type] }

/-- The summary dict returned by _generate_summary. Keys present only in
the non-empty branch are Option-valued. -/
structure Summary where
  total_gain_loss : ℚ
  short_term_gain_loss : ℚ
  long_term_gain_loss : ℚ
  num_transactions : Nat
  num_short_term : Option Nat
  num_long_term : Option Nat
  capital_gains : Option (List CapitalGain)
  remaining_lots : Option (List TaxLot)
  errors : List TaxError
deriving DecidableEq, Repr

/-- The _generate_summary method. When self.capital_gains is empty it
returns a dict holding only totals, num_transactions and errors. -/
def generate_summary (c : FIFOTaxCalculator) : Summary :=
  if c.capital_gains = [] then
    { total_gain_loss := 0, short_term_gain_loss := 0, long_term_gain_loss := 0,
      num_transactions := 0, num_short_term := none, num_long_term := none,
      capital_gains := none, remaining_lots := none, errors := c.errors }
  else
    let short_term_gains := c.capital_gains.filter (fun g => g.term == "short")
    let long_term_gains := c.capital_gains.filter (fun g => g.term == "long")
    let short_term_total := (short_term_gains.map (·.gain_loss)).sum
    let long_term_total := (long_term_gains.map (·.gain_loss)).sum
    { total_gain_loss := short_term_total + long_term_total,
      short_term_gain_loss := short_term_total,
      long_term_gain_loss := long_term_total,
      num_transactions := c.capital_gains.length,
      num_short_term := some short_term_gains.length,
      num_long_term := some long_term_gains.length,
      capital_gains := some c.capital_gains,
      remaining_lots := some c.lots,
      errors := c.errors }

/-- Stable insertion of a transaction into a list already sorted by date:
the new element goes before the first strictly later element and after all
earlier-or-equal ones, which together with sortTransactions reproduces the
sorted(transactions, key) call (a stable sort by date ascending). -/
def orderedInsertTx (a : Transaction) : List Transaction → List Transaction
  | [] => [a]
  | b :: l => if a.date ≤ b.date then a :: b :: l else b :: orderedInsertTx a l

/-- Stable sort of transactions by date ascending (sorted with key=date). -/
def sortTransactions : List Transaction → List Transaction
  | [] => []
  | a :: l => orderedInsertTx a (sortTransactions l)

/-- The calculate_taxes method: reset state, sort, process, summarise.
Returns the final instance state together with the summary dict. -/
def calculate_taxes (self : FIFOTaxCalculator) (transactions : List Transaction) :
    FIFOTaxCalculator × Summary :=
  let c0 : FIFOTaxCalculator := { self with lots := [], capital_gains := [], errors := [] }
  let sorted_transactions := sortTransactions transactions
  let final := sorted_transactions.foldl process_transaction c0
  (final, generate_summary final)

/-- Sum of the amount fields of a list of lots. -/
def sumLotAmounts (lots : List TaxLot) : ℚ :=
  (lots.map (·.amount)).sum

/-- Sum of the amount fields of a list of transactions. -/
def sumTxAmounts (ts : List Transaction) : ℚ :=
  (ts.map (·.amount)).sum

/-- Sum of lot amounts restricted to one symbol. -/
def symAmount (s : String) (lots : List TaxLot) : ℚ :=
  ((lots.filter (fun l => l.symbol == s)).map (·.amount)).sum

/-- Sum of matched amounts of realized gains restricted to one symbol. -/
def gainSymAmount (s : String) (gs : List CapitalGain) : ℚ :=
  ((gs.filter (fun g => g.symbol == s)).map (·.amount)).sum

/-- Sum of buy-transaction amounts restricted to one symbol; since a buy
creates a lot whose original_amount is the transaction amount, this is the
total original amount of all lots ever created for the symbol. -/
def buySymAmount (s : String) (ts : List Transaction) : ℚ :=
  ((ts.filter (fun t => t.type == "buy" && t.symbol == s)).map (·.amount)).sum

/-- Recognizer for the symbol-mismatch anomaly. -/
def isSymbolMismatchErr : TaxError → Bool
  | TaxError.symbolMismatch _ _ => true
  | _ => false

/-- Calculator state instrumented with ghost accounting: evicted collects
the snapshot of every lot removed on a symbol mismatch, discarded collects
the snapshot (with its residual amount) of every lot removed because its
remaining amount fell below the tolerance. -/
structure AcctState where
  engine : FIFOTaxCalculator
  evicted : List TaxLot
  discarded : List TaxLot
deriving DecidableEq, Repr

/-- Ghost-instrumented copy of sellLoop: identical branching and engine
updates, additionally recording evicted and discarded lots. -/
def sellLoopAcct (fuel : Nat) (sale_date sale_price_per_unit : ℚ) (symbol : String)
    (remaining_to_sell : ℚ) (a : AcctState) : AcctState :=
  match fuel with
  | 0 => a
  | fuel + 1 =>
    if remaining_to_sell ≤ eps then a
    else
      match a.engine.lots with
      | [] =>
        { a with engine :=
            { a.engine with errors :=
                a.engine.errors ++ [TaxError.noLots remaining_to_sell symbol sale_date] } }
      | oldest_lot :: rest =>
        if oldest_lot.symbol ≠ symbol then
          sellLoopAcct fuel sale_date sale_price_per_unit symbol remaining_to_sell
            { engine :=
                { a.engine with
                  lots := rest,
                  errors := a.engine.errors ++ [TaxError.symbolMismatch symbol oldest_lot.symbol] },
              evicted := a.evicted ++ [oldest_lot],
              discarded := a.discarded }
        else
          let amount_from_lot := min remaining_to_sell oldest_lot.amount
          let cost_basis := amount_from_lot * oldest_lot.price_per_unit
          let proceeds := amount_from_lot * sale_price_per_unit
          let gain_loss := proceeds - cost_basis
          let holding_days := ⌊sale_date - oldest_lot.date⌋
          let capital_gain := mkCapitalGain sale_date oldest_lot.date symbol
            amount_from_lot cost_basis proceeds gain_loss (termOf holding_days)
          let lot' : TaxLot := { oldest_lot with amount := oldest_lot.amount - amount_from_lot }
          sellLoopAcct fuel sale_date sale_price_per_unit symbol
            (remaining_to_sell - amount_from_lot)
            { engine :=
                { a.engine with
                  lots := if lot'.amount < eps then rest else lot' :: rest,
                  capital_gains := a.engine.capital_gains ++ [capital_gain] },
              evicted := a.evicted,
              discarded := if lot'.amount < eps then a.discarded ++ [lot'] else a.discarded }

/-- Instrumented process_transaction. -/
def process_transactionAcct (a : AcctState) (t : Transaction) : AcctState :=
  if t.type = "buy" then { a with engine := process_buy a.engine t }
  else if t.type = "sell" then
    sellLoopAcct (a.engine.lots.length + 2) t.date t.price_per_unit t.symbol t.amount a
  else
    { a with engine :=
        { a.engine with errors := a.engine.errors ++ [TaxError.unknownType t.type] } }

/-- Instrumented full run from a fresh calculator. -/
def runAcct (transactions : List Transaction) : AcctState :=
  (sortTransactions transactions).foldl process_transactionAcct
    { engine := emptyCalculator, evicted := [], discarded := [] }

/-- Per-symbol bucket total for the conservation argument: matched amounts
plus open-lot remainders plus anomaly-evicted amounts plus sub-tolerance
discarded residues. -/
def acctTotal (s : String) (a : AcctState) : ℚ :=
  gainSymAmount s a.engine.capital_gains + symAmount s a.engine.lots
    + symAmount s a.evicted + symAmount s a.discarded

/-- Transaction with the fee zeroed out; every field the engine ever reads
is preserved. -/
def stripFee (t : Transaction) : Transaction :=
  { t with fee_usd := 0 }

/-- Two transactions identical in every field except possibly fee_usd. -/
def sameExceptFee (t u : Transaction) : Prop :=
  t.date = u.date ∧ t.type = u.type ∧ t.symbol = u.symbol ∧
    t.amount = u.amount ∧ t.price_per_unit = u.price_per_unit ∧ t.price_usd = u.price_usd

/-- Concrete buy transaction for tests and witnesses. -/
def mkBuyTx (d : ℚ) (s : String) (amt p fee : ℚ) : Transaction :=
  { date := d, type := "buy", symbol := s, amount := amt,
    price_per_unit := p, price_usd := amt * p, fee_usd := fee }

/-- Concrete sell transaction for tests and witnesses. -/
def mkSellTx (d : ℚ) (s : String) (amt p fee : ℚ) : Transaction :=
  { date := d, type := "sell", symbol := s, amount := amt,
    price_per_unit := p, price_usd := amt * p, fee_usd := fee }

/-- The split-across-lots batch from the spec: Buy 0.5 at 40000, Buy 0.5
at 50000, Sell 0.8 at 60000, dates ascending, one symbol. -/
def splitBatch : List Transaction :=
  [mkBuyTx 0 "BTC" (1/2) 40000 0, mkBuyTx 31 "BTC" (1/2) 50000 0,
   mkSellTx 59 "BTC" (4/5) 60000 0]

/-- Batch exhibiting the silent sub-tolerance residue: buy 1, then sell
1 - 5e-9, leaving a residue of 5e-9 that is dropped without any anomaly. -/
def residueBatch : List Transaction :=
  [mkBuyTx 0 "BTC" 1 50000 0, mkSellTx 10 "BTC" (1 - 1/200000000) 60000 0]

/-- A sell whose amount 1e-9 is positive but below the loop tolerance. -/
def tinySell : Transaction := mkSellTx 0 "BTC" (1/1000000000) 50000 0


/-- Well-formedness of a realized-gain record: holding_days is the floor
of the date difference and the term classification matches the 365-day
threshold. -/
def GainWellFormed (g : CapitalGain) : Prop :=
  g.holding_days = ⌊g.sale_date - g.purchase_date⌋ ∧ (g.term = "long" ↔ 365 < g.holding_days)

theorem eps_pos : 0 < eps := by norm_num [eps]

theorem sellLoop_zero (sd sp : ℚ) (sym : String) (r : ℚ) (c : FIFOTaxCalculator) :
    sellLoop 0 sd sp sym r c = c := rfl

theorem sellLoop_exit {f : Nat} {sd sp : ℚ} {sym : String} {r : ℚ}
    {c : FIFOTaxCalculator} (h : r ≤ eps) : sellLoop f sd sp sym r c = c := by
  cases f with
  | zero => rfl
  | succ f => simp [sellLoop, h]

theorem sellLoop_nil {f : Nat} {sd sp : ℚ} {sym : String} {r : ℚ}
    {gains : List CapitalGain} {errs : List TaxError} (h : ¬ r ≤ eps) :
    sellLoop (f + 1) sd sp sym r ⟨[], gains, errs⟩ =
      ⟨[], gains, errs ++ [TaxError.noLots r sym sd]⟩ := by
  simp [sellLoop, h]

theorem sellLoop_mismatch {f : Nat} {sd sp : ℚ} {sym : String} {r : ℚ}
    {lot : TaxLot} {rest : List TaxLot} {gains : List CapitalGain}
    {errs : List TaxError} (h : ¬ r ≤ eps) (hs : lot.symbol ≠ sym) :
    sellLoop (f + 1) sd sp sym r ⟨lot :: rest, gains, errs⟩ =
      sellLoop f sd sp sym r
        ⟨rest, gains, errs ++ [TaxError.symbolMismatch sym lot.symbol]⟩ := by
  simp [sellLoop, h, hs]

theorem sellLoop_matched {f : Nat} {sd sp : ℚ} {sym : String} {r : ℚ}
    {lot : TaxLot} {rest : List TaxLot} {gains : List CapitalGain}
    {errs : List TaxError} (h : ¬ r ≤ eps) (hs : lot.symbol = sym) :
    sellLoop (f + 1) sd sp sym r ⟨lot :: rest, gains, errs⟩ =
      sellLoop f sd sp sym (r - min r lot.amount)
        ⟨(if lot.amount - min r lot.amount < eps then rest
          else { lot with amount := lot.amount - min r lot.amount } :: rest),
         gains ++ [mkCapitalGain sd lot.date sym (min r lot.amount)
            (min r lot.amount * lot.price_per_unit) (min r lot.amount * sp)
            (min r lot.amount * sp - min r lot.amount * lot.price_per_unit)
            (termOf ⌊sd - lot.date⌋)],
         errs⟩ := by
  simp [sellLoop, h, hs]

theorem remaining_zero_of_kept (r : ℚ) (lot : TaxLot)
    (hk : ¬ lot.amount - min r lot.amount < eps) : r - min r lot.amount = 0 := by
  rcases le_total r lot.amount with hle | hle
  · rw [min_eq_left hle]; ring
  · rw [min_eq_right hle] at hk
    exact absurd (by simpa using eps_pos) hk

theorem sellLoop_fuel_eq :
    ∀ (lots : List TaxLot) (gains : List CapitalGain) (errs : List TaxError)
      (f g : Nat) (sd sp : ℚ) (sym : String) (r : ℚ),
      lots.length + 2 ≤ f → lots.length + 2 ≤ g →
      sellLoop f sd sp sym r ⟨lots, gains, errs⟩ =
        sellLoop g sd sp sym r ⟨lots, gains, errs⟩ := by
  intro lots
  induction lots with
  | nil =>
    intro gains errs f g sd sp sym r hf hg
    obtain ⟨f, rfl⟩ : ∃ k, f = k + 1 := ⟨f - 1, by omega⟩
    obtain ⟨g, rfl⟩ : ∃ k, g = k + 1 := ⟨g - 1, by omega⟩
    by_cases hr : r ≤ eps
    · rw [sellLoop_exit hr, sellLoop_exit hr]
    · rw [sellLoop_nil hr, sellLoop_nil hr]
  | cons lot rest ih =>
    intro gains errs f g sd sp sym r hf hg
    obtain ⟨f, rfl⟩ : ∃ k, f = k + 1 := ⟨f - 1, by omega⟩
    obtain ⟨g, rfl⟩ : ∃ k, g = k + 1 := ⟨g - 1, by omega⟩
    have hf' : rest.length + 2 ≤ f := by
      simp only [List.length_cons] at hf; omega
    have hg' : rest.length + 2 ≤ g := by
      simp only [List.length_cons] at hg; omega
    by_cases hr : r ≤ eps
    · rw [sellLoop_exit hr, sellLoop_exit hr]
    by_cases hs : lot.symbol = sym
    · rw [sellLoop_matched hr hs, sellLoop_matched hr hs]
      by_cases hk : lot.amount - min r lot.amount < eps
      · rw [if_pos hk]
        exact ih _ _ _ _ _ _ _ _ hf' hg'
      · rw [if_neg hk]
        have h0 : r - min r lot.amount ≤ eps := by
          rw [remaining_zero_of_kept r lot hk]; exact le_of_lt eps_pos
        rw [sellLoop_exit h0, sellLoop_exit h0]
    · rw [sellLoop_mismatch hr hs, sellLoop_mismatch hr hs]
      exact ih _ _ _ _ _ _ _ _ hf' hg'

theorem orderedInsertTx_perm (a : Transaction) :
    ∀ l : List Transaction, List.Perm (orderedInsertTx a l) (a :: l) := by
  intro l
  induction l with
  | nil => exact List.Perm.refl _
  | cons b l ih =>
    by_cases hab : a.date ≤ b.date
    · rw [orderedInsertTx, if_pos hab]
    · rw [orderedInsertTx, if_neg hab]
      exact (ih.cons b).trans (List.Perm.swap a b l)

theorem sortTransactions_perm :
    ∀ l : List Transaction, List.Perm (sortTransactions l) l := by
  intro l
  induction l with
  | nil => exact List.Perm.refl _
  | cons a l ih =>
    exact (orderedInsertTx_perm a (sortTransactions l)).trans (ih.cons a)

theorem orderedInsertTx_pairwise (a : Transaction) :
    ∀ l : List Transaction,
      List.Pairwise (fun x y : Transaction => x.date ≤ y.date) l →
      List.Pairwise (fun x y : Transaction => x.date ≤ y.date) (orderedInsertTx a l) := by
  intro l
  induction l with
  | nil => intro _; simp [orderedInsertTx]
  | cons b l ih =>
    intro h
    rw [List.pairwise_cons] at h
    by_cases hab : a.date ≤ b.date
    · rw [orderedInsertTx, if_pos hab, List.pairwise_cons]
      refine ⟨?_, List.pairwise_cons.2 h⟩
      intro x hx
      rcases List.mem_cons.1 hx with rfl | hx
      · exact hab
      · exact le_trans hab (h.1 x hx)
    · rw [orderedInsertTx, if_neg hab, List.pairwise_cons]
      refine ⟨?_, ih h.2⟩
      intro x hx
      rcases List.mem_cons.1 ((orderedInsertTx_perm a l).mem_iff.1 hx) with rfl | hx
      · exact le_of_lt (lt_of_not_le hab)
      · exact h.1 x hx

theorem sortTransactions_sorted :
    ∀ l : List Transaction,
      List.Pairwise (fun x y : Transaction => x.date ≤ y.date) (sortTransactions l) := by
  intro l
  induction l with
  | nil => simp [sortTransactions]
  | cons a l ih => exact orderedInsertTx_pairwise a (sortTransactions l) ih

theorem orderedInsertTx_filter_date (a : Transaction) (d : ℚ) :
    ∀ l : List Transaction,
      (orderedInsertTx a l).filter (fun t => decide (t.date = d)) =
        if a.date = d then a :: l.filter (fun t => decide (t.date = d))
        else l.filter (fun t => decide (t.date = d)) := by
  intro l
  induction l with
  | nil => by_cases had : a.date = d <;> simp [orderedInsertTx, had]
  | cons b l ih =>
    by_cases hab : a.date ≤ b.date
    · rw [orderedInsertTx, if_pos hab]
      by_cases had : a.date = d <;>
        by_cases hbd : b.date = d <;>
          simp [List.filter_cons, had, hbd]
    · rw [orderedInsertTx, if_neg hab]
      have hblt : b.date < a.date := lt_of_not_le hab
      by_cases had : a.date = d
      · have hbnd : ¬ b.date = d := by rw [← had]; exact ne_of_lt hblt
        simp [List.filter_cons, had, hbnd, ih]
      · by_cases hbd : b.date = d <;> simp [List.filter_cons, had, hbd, ih]

theorem sortTransactions_filter_date (d : ℚ) :
    ∀ l : List Transaction,
      (sortTransactions l).filter (fun t => decide (t.date = d)) =
        l.filter (fun t => decide (t.date = d)) := by
  intro l
  induction l with
  | nil => rfl
  | cons a l ih =>
    rw [sortTransactions, orderedInsertTx_filter_date]
    by_cases had : a.date = d <;> simp [List.filter_cons, had, ih]

theorem termOf_long_iff (hd : Int) : termOf hd = "long" ↔ 365 < hd := by
  by_cases h : 365 < hd <;> simp [termOf, h]

theorem mkCapitalGain_wf (sd pd : ℚ) (sym : String) (m cb pr gl : ℚ) :
    GainWellFormed (mkCapitalGain sd pd sym m cb pr gl (termOf ⌊sd - pd⌋)) := by
  refine ⟨rfl, ?_⟩
  exact termOf_long_iff ⌊sd - pd⌋

theorem sellLoop_gains_wf :
    ∀ (f : Nat) (sd sp : ℚ) (sym : String) (r : ℚ) (c : FIFOTaxCalculator),
      (∀ g ∈ c.capital_gains, GainWellFormed g) →
      ∀ g ∈ (sellLoop f sd sp sym r c).capital_gains, GainWellFormed g := by
  intro f
  induction f with
  | zero => intro sd sp sym r c hc; exact hc
  | succ f ih =>
    intro sd sp sym r c hc
    by_cases hr : r ≤ eps
    · rw [sellLoop_exit hr]; exact hc
    obtain ⟨lots, gains, errs⟩ := c
    cases lots with
    | nil => rw [sellLoop_nil hr]; exact hc
    | cons lot rest =>
      by_cases hs : lot.symbol = sym
      · rw [sellLoop_matched hr hs]
        apply ih
        intro g hg
        rcases List.mem_append.1 hg with hg | hg
        · exact hc g hg
        · rcases List.mem_singleton.1 hg with rfl
          exact mkCapitalGain_wf _ _ _ _ _ _ _
      · rw [sellLoop_mismatch hr hs]
        exact ih _ _ _ _ _ hc

theorem process_transaction_gains_wf (c : FIFOTaxCalculator) (t : Transaction)
    (hc : ∀ g ∈ c.capital_gains, GainWellFormed g) :
    ∀ g ∈ (process_transaction c t).capital_gains, GainWellFormed g := by
  by_cases hb : t.type = "buy"
  · rw [process_transaction, if_pos hb]
    exact hc
  · by_cases hsl : t.type = "sell"
    · rw [process_transaction, if_neg hb, if_pos hsl]
      exact sellLoop_gains_wf _ _ _ _ _ _ hc
    · rw [process_transaction, if_neg hb, if_neg hsl]
      exact hc

theorem foldl_gains_wf :
    ∀ (l : List Transaction) (c : FIFOTaxCalculator),
      (∀ g ∈ c.capital_gains, GainWellFormed g) →
      ∀ g ∈ (l.foldl process_transaction c).capital_gains, GainWellFormed g := by
  intro l
  induction l with
  | nil => intro c hc; exact hc
  | cons t l ih =>
    intro c hc
    rw [List.foldl_cons]
    exact ih _ (process_transaction_gains_wf c t hc)

theorem calculate_taxes_gains_wf (c : FIFOTaxCalculator) (txs : List Transaction) :
    ∀ g ∈ (calculate_taxes c txs).1.capital_gains, GainWellFormed g := by
  exact foldl_gains_wf (sortTransactions txs) emptyCalculator (by simp [emptyCalculator])

theorem generate_summary_gains (c : FIFOTaxCalculator) (gs : List CapitalGain)
    (h : (generate_summary c).capital_gains = some gs) : gs = c.capital_gains := by
  by_cases he : c.capital_gains = []
  · rw [generate_summary, if_pos he] at h
    exact absurd h (by simp)
  · rw [generate_summary, if_neg he] at h
    simpa using h.symm

theorem foldl_buys :
    ∀ (l : List Transaction) (c : FIFOTaxCalculator), (∀ t ∈ l, t.type = "buy") →
      l.foldl process_transaction c =
        ⟨c.lots ++ l.map (fun t => mkTaxLot t.date t.amount t.price_per_unit t.symbol),
         c.capital_gains, c.errors⟩ := by
  intro l
  induction l with
  | nil => intro c _; simp
  | cons t l ih =>
    intro c h
    have ht : t.type = "buy" := h t (List.mem_cons_self t l)
    rw [List.foldl_cons, ih _ (fun u hu => h u (List.mem_cons_of_mem t hu))]
    rw [process_transaction, if_pos ht, process_buy]
    simp

theorem sumLotAmounts_map (l : List Transaction) :
    sumLotAmounts (l.map (fun t => mkTaxLot t.date t.amount t.price_per_unit t.symbol)) =
      sumTxAmounts l := by
  rw [sumLotAmounts, sumTxAmounts, List.map_map]
  rfl

theorem sumTxAmounts_sort (txs : List Transaction) :
    sumTxAmounts (sortTransactions txs) = sumTxAmounts txs := by
  unfold sumTxAmounts
  exact ((sortTransactions_perm txs).map _).sum_eq

theorem stripFee_date (t : Transaction) : (stripFee t).date = t.date := rfl

theorem process_transaction_stripFee (c : FIFOTaxCalculator) (t : Transaction) :
    process_transaction c (stripFee t) = process_transaction c t := rfl

theorem orderedInsertTx_map_stripFee (a : Transaction) :
    ∀ l : List Transaction,
      orderedInsertTx (stripFee a) (l.map stripFee) = (orderedInsertTx a l).map stripFee := by
  intro l
  induction l with
  | nil => rfl
  | cons b l ih =>
    by_cases hab : a.date ≤ b.date <;>
      simp [orderedInsertTx, stripFee_date, hab, ih]

theorem sortTransactions_map_stripFee :
    ∀ l : List Transaction,
      sortTransactions (l.map stripFee) = (sortTransactions l).map stripFee := by
  intro l
  induction l with
  | nil => rfl
  | cons a l ih =>
    rw [List.map_cons, sortTransactions, sortTransactions, ih, orderedInsertTx_map_stripFee]

theorem calculate_taxes_stripFee (c : FIFOTaxCalculator) (txs : List Transaction) :
    calculate_taxes c (txs.map stripFee) = calculate_taxes c txs := by
  rw [calculate_taxes, calculate_taxes, sortTransactions_map_stripFee, List.foldl_map]
  rfl

theorem sameExceptFee_strip {t u : Transaction} (h : sameExceptFee t u) :
    stripFee t = stripFee u := by
  obtain ⟨h1, h2, h3, h4, h5, h6⟩ := h
  cases t; cases u
  simp_all [stripFee]

theorem map_stripFee_eq :
    ∀ {l₁ l₂ : List Transaction}, List.Forall₂ sameExceptFee l₁ l₂ →
      l₁.map stripFee = l₂.map stripFee := by
  intro l₁ l₂ h
  induction h with
  | nil => rfl
  | cons hab _ ih => simp [sameExceptFee_strip hab, ih]

theorem sellLoopAcct_exit {f : Nat} {sd sp : ℚ} {sym : String} {r : ℚ}
    {a : AcctState} (h : r ≤ eps) : sellLoopAcct f sd sp sym r a = a := by
  cases f with
  | zero => rfl
  | succ f => simp [sellLoopAcct, h]

theorem sellLoopAcct_nil {f : Nat} {sd sp : ℚ} {sym : String} {r : ℚ}
    {gains : List CapitalGain} {errs : List TaxError} {ev dis : List TaxLot}
    (h : ¬ r ≤ eps) :
    sellLoopAcct (f + 1) sd sp sym r ⟨⟨[], gains, errs⟩, ev, dis⟩ =
      ⟨⟨[], gains, errs ++ [TaxError.noLots r sym sd]⟩, ev, dis⟩ := by
  simp [sellLoopAcct, h]

theorem sellLoopAcct_mismatch {f : Nat} {sd sp : ℚ} {sym : String} {r : ℚ}
    {lot : TaxLot} {rest : List TaxLot} {gains : List CapitalGain}
    {errs : List TaxError} {ev dis : List TaxLot}
    (h : ¬ r ≤ eps) (hs : lot.symbol ≠ sym) :
    sellLoopAcct (f + 1) sd sp sym r ⟨⟨lot :: rest, gains, errs⟩, ev, dis⟩ =
      sellLoopAcct f sd sp sym r
        ⟨⟨rest, gains, errs ++ [TaxError.symbolMismatch sym lot.symbol]⟩,
         ev ++ [lot], dis⟩ := by
  simp [sellLoopAcct, h, hs]

theorem sellLoopAcct_matched {f : Nat} {sd sp : ℚ} {sym : String} {r : ℚ}
    {lot : TaxLot} {rest : List TaxLot} {gains : List CapitalGain}
    {errs : List TaxError} {ev dis : List TaxLot}
    (h : ¬ r ≤ eps) (hs : lot.symbol = sym) :
    sellLoopAcct (f + 1) sd sp sym r ⟨⟨lot :: rest, gains, errs⟩, ev, dis⟩ =
      sellLoopAcct f sd sp sym (r - min r lot.amount)
        ⟨⟨(if lot.amount - min r lot.amount < eps then rest
           else { lot with amount := lot.amount - min r lot.amount } :: rest),
          gains ++ [mkCapitalGain sd lot.date sym (min r lot.amount)
            (min r lot.amount * lot.price_per_unit) (min r lot.amount * sp)
            (min r lot.amount * sp - min r lot.amount * lot.price_per_unit)
            (termOf ⌊sd - lot.date⌋)],
          errs⟩,
         ev,
         (if lot.amount - min r lot.amount < eps
          then dis ++ [{ lot with amount := lot.amount - min r lot.amount }]
          else dis)⟩ := by
  simp [sellLoopAcct, h, hs]

theorem sellLoopAcct_engine :
    ∀ (f : Nat) (sd sp : ℚ) (sym : String) (r : ℚ) (a : AcctState),
      (sellLoopAcct f sd sp sym r a).engine = sellLoop f sd sp sym r a.engine := by
  intro f
  induction f with
  | zero => intro sd sp sym r a; rfl
  | succ f ih =>
    intro sd sp sym r a
    by_cases hr : r ≤ eps
    · rw [sellLoopAcct_exit hr, sellLoop_exit hr]
    obtain ⟨⟨lots, gains, errs⟩, ev, dis⟩ := a
    cases lots with
    | nil => rw [sellLoopAcct_nil hr]; rw [sellLoop_nil hr]
    | cons lot rest =>
      by_cases hs : lot.symbol = sym
      · rw [sellLoopAcct_matched hr hs, ih]; rw [sellLoop_matched hr hs]
      · rw [sellLoopAcct_mismatch hr hs, ih]; rw [sellLoop_mismatch hr hs]

theorem symAmount_nil (s : String) : symAmount s [] = 0 := rfl

theorem symAmount_cons (s : String) (l : TaxLot) (ls : List TaxLot) :
    symAmount s (l :: ls) = (if l.symbol = s then l.amount else 0) + symAmount s ls := by
  by_cases h : l.symbol = s <;> simp [symAmount, List.filter_cons, h]

theorem symAmount_append (s : String) (l₁ l₂ : List TaxLot) :
    symAmount s (l₁ ++ l₂) = symAmount s l₁ + symAmount s l₂ := by
  simp [symAmount, List.filter_append]

theorem gainSymAmount_append (s : String) (g₁ g₂ : List CapitalGain) :
    gainSymAmount s (g₁ ++ g₂) = gainSymAmount s g₁ + gainSymAmount s g₂ := by
  simp [gainSymAmount, List.filter_append]

theorem gainSymAmount_singleton (s : String) (g : CapitalGain) :
    gainSymAmount s [g] = if g.symbol = s then g.amount else 0 := by
  by_cases h : g.symbol = s <;> simp [gainSymAmount, List.filter_cons, h]

theorem buySymAmount_cons (s : String) (t : Transaction) (l : List Transaction) :
    buySymAmount s (t :: l) =
      (if t.type = "buy" ∧ t.symbol = s then t.amount else 0) + buySymAmount s l := by
  by_cases h1 : t.type = "buy" <;> by_cases h2 : t.symbol = s <;>
    simp [buySymAmount, List.filter_cons, h1, h2]

theorem sellLoopAcct_total (s : String) :
    ∀ (f : Nat) (sd sp : ℚ) (sym : String) (r : ℚ) (a : AcctState),
      acctTotal s (sellLoopAcct f sd sp sym r a) = acctTotal s a := by
  intro f
  induction f with
  | zero => intro sd sp sym r a; rfl
  | succ f ih =>
    intro sd sp sym r a
    by_cases hr : r ≤ eps
    · rw [sellLoopAcct_exit hr]
    obtain ⟨⟨lots, gains, errs⟩, ev, dis⟩ := a
    cases lots with
    | nil => rw [sellLoopAcct_nil hr]; rfl
    | cons lot rest =>
      by_cases hs : lot.symbol = sym
      · rw [sellLoopAcct_matched hr hs, ih]
        by_cases hk : lot.amount - min r lot.amount < eps <;>
          [simp only [if_pos hk]; simp only [if_neg hk]] <;>
          by_cases hq : sym = s <;>
            simp [acctTotal, symAmount_nil, symAmount_cons, symAmount_append,
              gainSymAmount_append, gainSymAmount_singleton, mkCapitalGain, hs, hq] <;>
              ring
      · rw [sellLoopAcct_mismatch hr hs, ih]
        by_cases hq : lot.symbol = s <;>
          simp [acctTotal, symAmount_nil, symAmount_cons, symAmount_append, hq] <;> ring

theorem process_transactionAcct_engine (a : AcctState) (t : Transaction) :
    (process_transactionAcct a t).engine = process_transaction a.engine t := by
  by_cases hb : t.type = "buy"
  · rw [process_transactionAcct, if_pos hb, process_transaction, if_pos hb]
  · by_cases hsl : t.type = "sell"
    · rw [process_transactionAcct, if_neg hb, if_pos hsl,
        process_transaction, if_neg hb, if_pos hsl, process_sell, sellLoopAcct_engine]
    · rw [process_transactionAcct, if_neg hb, if_neg hsl,
        process_transaction, if_neg hb, if_neg hsl]

theorem foldlAcct_engine :
    ∀ (l : List Transaction) (a : AcctState),
      (l.foldl process_transactionAcct a).engine = l.foldl process_transaction a.engine := by
  intro l
  induction l with
  | nil => intro a; rfl
  | cons t l ih =>
    intro a
    rw [List.foldl_cons, List.foldl_cons, ih, process_transactionAcct_engine]

theorem runAcct_engine (c : FIFOTaxCalculator) (txs : List Transaction) :
    (runAcct txs).engine = (calculate_taxes c txs).1 := by
  rw [runAcct, foldlAcct_engine]
  rfl

theorem process_transactionAcct_total (s : String) (a : AcctState) (t : Transaction) :
    acctTotal s (process_transactionAcct a t) =
      acctTotal s a + (if t.type = "buy" ∧ t.symbol = s then t.amount else 0) := by
  by_cases hb : t.type = "buy"
  · rw [process_transactionAcct, if_pos hb]
    by_cases hts : t.symbol = s <;>
      simp [acctTotal, process_buy, symAmount_nil, symAmount_cons, symAmount_append,
        mkTaxLot, hb, hts] <;> ring
  · by_cases hsl : t.type = "sell"
    · rw [process_transactionAcct, if_neg hb, if_pos hsl, sellLoopAcct_total]
      simp [hb]
    · rw [process_transactionAcct, if_neg hb, if_neg hsl]
      simp [acctTotal, hb]

theorem foldlAcct_total (s : String) :
    ∀ (l : List Transaction) (a : AcctState),
      acctTotal s (l.foldl process_transactionAcct a) = acctTotal s a + buySymAmount s l := by
  intro l
  induction l with
  | nil => intro a; simp [buySymAmount]
  | cons t l ih =>
    intro a
    rw [List.foldl_cons, ih, process_transactionAcct_total, buySymAmount_cons]
    ring

theorem buySymAmount_sort (s : String) (txs : List Transaction) :
    buySymAmount s (sortTransactions txs) = buySymAmount s txs := by
  unfold buySymAmount
  exact (((sortTransactions_perm txs).filter _).map _).sum_eq

theorem runAcct_total (s : String) (txs : List Transaction) :
    acctTotal s (runAcct txs) = buySymAmount s txs := by
  rw [runAcct, foldlAcct_total, buySymAmount_sort]
  simp [acctTotal, symAmount, gainSymAmount, emptyCalculator]

theorem sellLoopAcct_discarded_bound :
    ∀ (f : Nat) (sd sp : ℚ) (sym : String) (r : ℚ) (a : AcctState),
      (∀ l ∈ a.discarded, 0 ≤ l.amount ∧ l.amount < eps) →
      ∀ l ∈ (sellLoopAcct f sd sp sym r a).discarded, 0 ≤ l.amount ∧ l.amount < eps := by
  intro f
  induction f with
  | zero => intro sd sp sym r a ha; exact ha
  | succ f ih =>
    intro sd sp sym r a ha
    by_cases hr : r ≤ eps
    · rw [sellLoopAcct_exit hr]; exact ha
    obtain ⟨⟨lots, gains, errs⟩, ev, dis⟩ := a
    cases lots with
    | nil => rw [sellLoopAcct_nil hr]; exact ha
    | cons lot rest =>
      by_cases hs : lot.symbol = sym
      · rw [sellLoopAcct_matched hr hs]
        apply ih
        dsimp only
        by_cases hk : lot.amount - min r lot.amount < eps
        · rw [if_pos hk]
          intro l hl
          rcases List.mem_append.1 hl with hl | hl
          · exact ha l hl
          · rcases List.mem_singleton.1 hl with rfl
            exact ⟨sub_nonneg.2 (min_le_right r lot.amount), hk⟩
        · rw [if_neg hk]; exact ha
      · rw [sellLoopAcct_mismatch hr hs]
        exact ih _ _ _ _ _ ha

theorem process_transactionAcct_discarded_bound (a : AcctState) (t : Transaction)
    (ha : ∀ l ∈ a.discarded, 0 ≤ l.amount ∧ l.amount < eps) :
    ∀ l ∈ (process_transactionAcct a t).discarded, 0 ≤ l.amount ∧ l.amount < eps := by
  by_cases hb : t.type = "buy"
  · rw [process_transactionAcct, if_pos hb]; exact ha
  · by_cases hsl : t.type = "sell"
    · rw [process_transactionAcct, if_neg hb, if_pos hsl]
      exact sellLoopAcct_discarded_bound _ _ _ _ _ _ ha
    · rw [process_transactionAcct, if_neg hb, if_neg hsl]; exact ha

theorem runAcct_discarded_bound (txs : List Transaction) :
    ∀ l ∈ (runAcct txs).discarded, 0 ≤ l.amount ∧ l.amount < eps := by
  rw [runAcct]
  generalize sortTransactions txs = l
  have h :
      ∀ (l : List Transaction) (a : AcctState),
        (∀ x ∈ a.discarded, 0 ≤ x.amount ∧ x.amount < eps) →
        ∀ x ∈ (l.foldl process_transactionAcct a).discarded, 0 ≤ x.amount ∧ x.amount < eps := by
    intro l
    induction l with
    | nil => intro a ha; exact ha
    | cons t l ih =>
      intro a ha
      rw [List.foldl_cons]
      exact ih _ (process_transactionAcct_discarded_bound a t ha)
  exact h l _ (by simp)

theorem sellLoopAcct_evicted_count :
    ∀ (f : Nat) (sd sp : ℚ) (sym : String) (r : ℚ) (a : AcctState),
      a.evicted.length = (a.engine.errors.filter isSymbolMismatchErr).length →
      (sellLoopAcct f sd sp sym r a).evicted.length =
        ((sellLoopAcct f sd sp sym r a).engine.errors.filter isSymbolMismatchErr).length := by
  intro f
  induction f with
  | zero => intro sd sp sym r a ha; exact ha
  | succ f ih =>
    intro sd sp sym r a ha
    by_cases hr : r ≤ eps
    · rw [sellLoopAcct_exit hr]; exact ha
    obtain ⟨⟨lots, gains, errs⟩, ev, dis⟩ := a
    cases lots with
    | nil =>
      rw [sellLoopAcct_nil hr]
      simpa [List.filter_append, isSymbolMismatchErr] using ha
    | cons lot rest =>
      by_cases hs : lot.symbol = sym
      · rw [sellLoopAcct_matched hr hs]
        exact ih _ _ _ _ _ ha
      · rw [sellLoopAcct_mismatch hr hs]
        apply ih
        simpa [List.filter_append, isSymbolMismatchErr] using ha

theorem process_transactionAcct_evicted_count (a : AcctState) (t : Transaction)
    (ha : a.evicted.length = (a.engine.errors.filter isSymbolMismatchErr).length) :
    (process_transactionAcct a t).evicted.length =
      ((process_transactionAcct a t).engine.errors.filter isSymbolMismatchErr).length := by
  by_cases hb : t.type = "buy"
  · rw [process_transactionAcct, if_pos hb]
    simpa [process_buy] using ha
  · by_cases hsl : t.type = "sell"
    · rw [process_transactionAcct, if_neg hb, if_pos hsl]
      exact sellLoopAcct_evicted_count _ _ _ _ _ _ ha
    · rw [process_transactionAcct, if_neg hb, if_neg hsl]
      simpa [List.filter_append, isSymbolMismatchErr] using ha

theorem runAcct_evicted_count (txs : List Transaction) :
    (runAcct txs).evicted.length =
      ((runAcct txs).engine.errors.filter isSymbolMismatchErr).length := by
  rw [runAcct]
  generalize sortTransactions txs = l
  have h :
      ∀ (l : List Transaction) (a : AcctState),
        a.evicted.length = (a.engine.errors.filter isSymbolMismatchErr).length →
        (l.foldl process_transactionAcct a).evicted.length =
          ((l.foldl process_transactionAcct a).engine.errors.filter isSymbolMismatchErr).length := by
    intro l
    induction l with
    | nil => intro a ha; exact ha
    | cons t l ih =>
      intro a ha
      rw [List.foldl_cons]
      exact ih _ (process_transactionAcct_evicted_count a t ha)
  exact h l _ (by simp [emptyCalculator])

/-- C3: while processing a sell, if the front lot's symbol differs from the
sell's symbol, the engine appends a symbol-mismatch anomaly, permanently
removes that front lot without emitting any realized gain, and continues the
loop with the remaining-to-sell amount unchanged. -/
theorem claim_C3 :
    ∀ (f : Nat) (sd sp : ℚ) (sym : String) (r : ℚ) (lot : TaxLot)
      (rest : List TaxLot) (gains : List CapitalGain) (errs : List TaxError),
      eps < r → lot.symbol ≠ sym →
      sellLoop (f + 1) sd sp sym r ⟨lot :: rest, gains, errs⟩ =
        sellLoop f sd sp sym r
          ⟨rest, gains, errs ++ [TaxError.symbolMismatch sym lot.symbol]⟩ := by
  intro f sd sp sym r lot rest gains errs hr hs
  exact sellLoop_mismatch (not_le.2 hr) hs

/-- Witness for C3 at a concrete mismatching state. -/
theorem claim_C3_witness :
    eps < 1 ∧ (mkTaxLot 0 1 100 "BTC").symbol ≠ "ETH" ∧
    sellLoop (0 + 1) 5 2 "ETH" 1 ⟨[mkTaxLot 0 1 100 "BTC"], [], []⟩ =
      sellLoop 0 5 2 "ETH" 1
        ⟨[], [], [TaxError.symbolMismatch "ETH" (mkTaxLot 0 1 100 "BTC").symbol]⟩ :=
  ⟨by norm_num [eps], by simp [mkTaxLot],
   claim_C3 0 5 2 "ETH" 1 (mkTaxLot 0 1 100 "BTC") [] [] []
     (by norm_num [eps]) (by simp [mkTaxLot])⟩

/-- C7: calculate_taxes processes the batch in the order given by a stable
sort on date ascending: the processing order is sortTransactions, which is a
permutation of the input, pairwise sorted by date, and preserves the relative
input order of transactions with any fixed date. -/
theorem claim_C7 (txs : List Transaction) :
    (∀ c : FIFOTaxCalculator,
      calculate_taxes c txs =
        ((sortTransactions txs).foldl process_transaction emptyCalculator,
         generate_summary ((sortTransactions txs).foldl process_transaction emptyCalculator))) ∧
    List.Pairwise (fun a b : Transaction => a.date ≤ b.date) (sortTransactions txs) ∧
    List.Perm (sortTransactions txs) txs ∧
    (∀ d : ℚ, (sortTransactions txs).filter (fun t => decide (t.date = d)) =
      txs.filter (fun t => decide (t.date = d))) :=
  ⟨fun _ => rfl, sortTransactions_sorted txs, sortTransactions_perm txs,
   fun d => sortTransactions_filter_date d txs⟩

/-- C8: the result of calculate_taxes is independent of the instance state
it starts from (state is reset at the beginning of every run), so invoking
the engine twice with the same batch yields identical summaries. -/
theorem claim_C8 (c c' : FIFOTaxCalculator) (txs : List Transaction) :
    calculate_taxes c txs = calculate_taxes c' txs ∧
    (calculate_taxes (calculate_taxes c txs).1 txs).2 = (calculate_taxes c txs).2 :=
  ⟨rfl, rfl⟩

/-- C9: the per-sell matching loop terminates; formally, the fuel-indexed
loop is stable once the fuel reaches ledger length + 2, so the result of
process_sell is the limit of the loop. -/
theorem claim_C9 (f : Nat) (sd sp : ℚ) (sym : String) (r : ℚ)
    (c : FIFOTaxCalculator) (hf : c.lots.length + 2 ≤ f) :
    sellLoop f sd sp sym r c = sellLoop (c.lots.length + 2) sd sp sym r c ∧
    process_sell c ⟨sd, "sell", sym, r, sp, 0, 0⟩ = sellLoop f sd sp sym r c := by
  obtain ⟨lots, gains, errs⟩ := c
  refine ⟨sellLoop_fuel_eq lots gains errs f _ sd sp sym r hf le_rfl, ?_⟩
  rw [process_sell]
  exact sellLoop_fuel_eq lots gains errs _ f sd sp sym r le_rfl hf

/-- Witness for C9 at a concrete ledger and oversized fuel. -/
theorem claim_C9_witness :
    ([mkTaxLot 0 1 100 "BTC"] : List TaxLot).length + 2 ≤ 7 ∧
    sellLoop 7 0 2 "BTC" 5 ⟨[mkTaxLot 0 1 100 "BTC"], [], []⟩ =
      sellLoop 3 0 2 "BTC" 5 ⟨[mkTaxLot 0 1 100 "BTC"], [], []⟩ :=
  ⟨by norm_num,
   (claim_C9 7 0 2 "BTC" 5 ⟨[mkTaxLot 0 1 100 "BTC"], [], []⟩ (by norm_num)).1⟩

/-- C10: fees do not affect the result; two batches identical except for
fee_usd values produce identical final states and summaries. -/
theorem claim_C10 (c c' : FIFOTaxCalculator) (txs txs' : List Transaction)
    (h : List.Forall₂ sameExceptFee txs txs') :
    calculate_taxes c txs = calculate_taxes c' txs' := by
  have h1 : calculate_taxes c txs = calculate_taxes c (txs.map stripFee) :=
    (calculate_taxes_stripFee c txs).symm
  have h2 : txs.map stripFee = txs'.map stripFee := map_stripFee_eq h
  have h3 : calculate_taxes c (txs'.map stripFee) = calculate_taxes c' (txs'.map stripFee) :=
    rfl
  rw [h1, h2, h3, calculate_taxes_stripFee]

/-- Witness for C10: one-buy batches differing only in the fee. -/
theorem claim_C10_witness :
    List.Forall₂ sameExceptFee [mkBuyTx 0 "BTC" 1 50000 10] [mkBuyTx 0 "BTC" 1 50000 99] ∧
    calculate_taxes emptyCalculator [mkBuyTx 0 "BTC" 1 50000 10] =
      calculate_taxes emptyCalculator [mkBuyTx 0 "BTC" 1 50000 99] :=
  ⟨List.Forall₂.cons ⟨rfl, rfl, rfl, rfl, rfl, rfl⟩ List.Forall₂.nil,
   claim_C10 emptyCalculator emptyCalculator _ _
     (List.Forall₂.cons ⟨rfl, rfl, rfl, rfl, rfl, rfl⟩ List.Forall₂.nil)⟩

/-- Counterexample to C1 as stated: for a concrete batch with a single Buy,
the returned summary does not include the surviving open lots at all (the
remaining_lots key is absent, modelled as none), contradicting the claim
that the summary includes them with matching amounts. -/
theorem claim_C1_counterexample :
    (∀ t ∈ [mkBuyTx 0 "BTC" 1 50000 10], t.type = "buy") ∧
    (calculate_taxes emptyCalculator [mkBuyTx 0 "BTC" 1 50000 10]).2.remaining_lots = none ∧
    (∀ ls : List TaxLot,
      (calculate_taxes emptyCalculator [mkBuyTx 0 "BTC" 1 50000 10]).2.remaining_lots ≠
        some ls) := by
  have he :
      (calculate_taxes emptyCalculator [mkBuyTx 0 "BTC" 1 50000 10]).2.remaining_lots = none := by
    norm_num [calculate_taxes, sortTransactions, orderedInsertTx, process_transaction,
      process_buy, generate_summary, mkBuyTx, emptyCalculator]
  exact ⟨by simp [mkBuyTx], he, by rw [he]; simp⟩

/-- C1 (amended): for a batch of only Buys, total_gain_loss is 0, errors is
empty, and the engine state conserves the bought amounts; however the
summary returned in the empty-gains case omits both the capital_gains and
remaining_lots keys (none), while still carrying the anomaly list. -/
theorem claim_C1 (c₀ : FIFOTaxCalculator) (txs : List Transaction)
    (h : ∀ t ∈ txs, t.type = "buy") :
    (calculate_taxes c₀ txs).2.total_gain_loss = 0 ∧
    (calculate_taxes c₀ txs).2.errors = [] ∧
    (calculate_taxes c₀ txs).2.capital_gains = none ∧
    (calculate_taxes c₀ txs).2.remaining_lots = none ∧
    sumLotAmounts (calculate_taxes c₀ txs).1.lots = sumTxAmounts txs ∧
    (∀ c : FIFOTaxCalculator, c.capital_gains = [] →
      (generate_summary c).errors = c.errors ∧
      (generate_summary c).remaining_lots = none) := by
  have hsorted : ∀ t ∈ sortTransactions txs, t.type = "buy" :=
    fun t ht => h t ((sortTransactions_perm txs).subset ht)
  have hfold := foldl_buys (sortTransactions txs) emptyCalculator hsorted
  have e1 : calculate_taxes c₀ txs =
      ((sortTransactions txs).foldl process_transaction emptyCalculator,
       generate_summary ((sortTransactions txs).foldl process_transaction emptyCalculator)) :=
    rfl
  rw [e1, hfold]
  refine ⟨by simp [generate_summary, emptyCalculator], by simp [generate_summary, emptyCalculator],
    by simp [generate_summary, emptyCalculator], by simp [generate_summary, emptyCalculator],
    ?_, ?_⟩
  · show sumLotAmounts (emptyCalculator.lots ++ _) = _
    rw [emptyCalculator]
    rw [List.nil_append, sumLotAmounts_map, sumTxAmounts_sort]
  · intro c hc
    rw [generate_summary, if_pos hc]
    exact ⟨rfl, rfl⟩

/-- Witness for C1 at a concrete one-buy batch. -/
theorem claim_C1_witness :
    (∀ t ∈ [mkBuyTx 0 "BTC" 2 50000 10], t.type = "buy") ∧
    ((calculate_taxes emptyCalculator [mkBuyTx 0 "BTC" 2 50000 10]).2.total_gain_loss = 0 ∧
     (calculate_taxes emptyCalculator [mkBuyTx 0 "BTC" 2 50000 10]).2.errors = [] ∧
     (calculate_taxes emptyCalculator [mkBuyTx 0 "BTC" 2 50000 10]).2.capital_gains = none ∧
     (calculate_taxes emptyCalculator [mkBuyTx 0 "BTC" 2 50000 10]).2.remaining_lots = none ∧
     sumLotAmounts (calculate_taxes emptyCalculator [mkBuyTx 0 "BTC" 2 50000 10]).1.lots =
       sumTxAmounts [mkBuyTx 0 "BTC" 2 50000 10] ∧
     (∀ c : FIFOTaxCalculator, c.capital_gains = [] →
       (generate_summary c).errors = c.errors ∧
       (generate_summary c).remaining_lots = none)) :=
  ⟨by simp [mkBuyTx],
   claim_C1 emptyCalculator [mkBuyTx 0 "BTC" 2 50000 10] (by simp [mkBuyTx])⟩

/-- Counterexample to C2 as stated: the single positive-amount sell 1e-9 of
BTC with no prior buys yields an empty error list (the loop guard needs
amount above 1e-8), and the summary carries no capital_gains key at all
(none) rather than an empty list. -/
theorem claim_C2_counterexample :
    tinySell.type = "sell" ∧ 0 < tinySell.amount ∧
    (calculate_taxes emptyCalculator [tinySell]).2.errors = [] ∧
    (calculate_taxes emptyCalculator [tinySell]).2.capital_gains = none ∧
    ∀ gs : List CapitalGain,
      (calculate_taxes emptyCalculator [tinySell]).2.capital_gains ≠ some gs := by
  have he : calculate_taxes emptyCalculator [tinySell] =
      (emptyCalculator, generate_summary emptyCalculator) := by
    have e1 : calculate_taxes emptyCalculator [tinySell] =
        (process_transaction emptyCalculator tinySell,
         generate_summary (process_transaction emptyCalculator tinySell)) := rfl
    have e2 : process_transaction emptyCalculator tinySell = emptyCalculator := by
      rw [process_transaction, if_neg (by simp [tinySell, mkSellTx]),
        if_pos (by simp [tinySell, mkSellTx] : tinySell.type = "sell"), process_sell]
      exact sellLoop_exit (by norm_num [tinySell, mkSellTx, eps])
    rw [e1, e2]
  rw [he]
  refine ⟨rfl, by norm_num [tinySell, mkSellTx], ?_, ?_, ?_⟩ <;>
    simp [generate_summary, emptyCalculator]

/-- C2 (amended): for a batch of a single Sell with no prior Buy, the
summary reports zero transactions and omits the capital_gains key; if the
sell amount exceeds the 1e-8 tolerance the error list is exactly the one
no-lots anomaly (the unmatched remainder being dropped), and if the amount
is within tolerance no error is recorded at all. -/
theorem claim_C2 (c₀ : FIFOTaxCalculator) (t : Transaction) (h : t.type = "sell") :
    (calculate_taxes c₀ [t]).2.num_transactions = 0 ∧
    (calculate_taxes c₀ [t]).2.capital_gains = none ∧
    (calculate_taxes c₀ [t]).1.capital_gains = [] ∧
    (calculate_taxes c₀ [t]).1.lots = [] ∧
    (eps < t.amount →
      (calculate_taxes c₀ [t]).2.errors = [TaxError.noLots t.amount t.symbol t.date]) ∧
    (t.amount ≤ eps → (calculate_taxes c₀ [t]).2.errors = []) := by
  have hne : ¬ t.type = "buy" := by rw [h]; simp
  have e1 : calculate_taxes c₀ [t] =
      (process_transaction emptyCalculator t,
       generate_summary (process_transaction emptyCalculator t)) := rfl
  have e2 : process_transaction emptyCalculator t =
      sellLoop (1 + 1) t.date t.price_per_unit t.symbol t.amount emptyCalculator := by
    rw [process_transaction, if_neg hne, if_pos h, process_sell]
    rfl
  by_cases ha : t.amount ≤ eps
  · have e3 : process_transaction emptyCalculator t = emptyCalculator := by
      rw [e2]; exact sellLoop_exit ha
    rw [e1, e3]
    refine ⟨rfl, rfl, rfl, rfl, ?_, fun _ => rfl⟩
    intro hlt
    exact absurd ha (not_le.2 hlt)
  · have e3 : process_transaction emptyCalculator t =
        ⟨[], [], [TaxError.noLots t.amount t.symbol t.date]⟩ := by
      rw [e2]
      exact sellLoop_nil ha
    rw [e1, e3]
    refine ⟨rfl, rfl, rfl, rfl, fun _ => rfl, ?_⟩
    intro hle
    exact absurd hle ha

/-- Witness for C2 at a concrete oversell of one BTC. -/
theorem claim_C2_witness :
    (mkSellTx 3 "BTC" 1 50000 0).type = "sell" ∧
    eps < (mkSellTx 3 "BTC" 1 50000 0).amount ∧
    (calculate_taxes emptyCalculator [mkSellTx 3 "BTC" 1 50000 0]).2.num_transactions = 0 ∧
    (calculate_taxes emptyCalculator [mkSellTx 3 "BTC" 1 50000 0]).2.errors =
      [TaxError.noLots (mkSellTx 3 "BTC" 1 50000 0).amount
        (mkSellTx 3 "BTC" 1 50000 0).symbol (mkSellTx 3 "BTC" 1 50000 0).date] :=
  ⟨rfl, by norm_num [mkSellTx, eps],
   (claim_C2 emptyCalculator (mkSellTx 3 "BTC" 1 50000 0) rfl).1,
   (claim_C2 emptyCalculator (mkSellTx 3 "BTC" 1 50000 0) rfl).2.2.2.2.1
     (by norm_num [mkSellTx, eps])⟩

/-- C6: every realized gain carries term long exactly when its holding
days exceed 365, holding_days is the whole-day difference of its dates,
and at the boundary 365 days classifies short while 366 classifies long. -/
theorem claim_C6 (c₀ : FIFOTaxCalculator) (txs : List Transaction) (g : CapitalGain)
    (hg : g ∈ (calculate_taxes c₀ txs).1.capital_gains ∨
      ∃ gs, (calculate_taxes c₀ txs).2.capital_gains = some gs ∧ g ∈ gs) :
    (g.term = "long" ↔ 365 < g.holding_days) ∧
    g.holding_days = ⌊g.sale_date - g.purchase_date⌋ ∧
    termOf 365 = "short" ∧ termOf 366 = "long" := by
  have hmem : g ∈ (calculate_taxes c₀ txs).1.capital_gains := by
    rcases hg with hg | ⟨gs, hgs, hmem⟩
    · exact hg
    · have e2 : (calculate_taxes c₀ txs).2.capital_gains =
          (generate_summary (calculate_taxes c₀ txs).1).capital_gains := rfl
      rw [e2] at hgs
      rw [generate_summary_gains _ _ hgs] at hmem
      exact hmem
  have hwf := calculate_taxes_gains_wf c₀ txs g hmem
  exact ⟨hwf.2, hwf.1, by norm_num [termOf], by norm_num [termOf]⟩

/-- Witness for C6: the single gain of a concrete buy-sell batch. -/
theorem claim_C6_witness :
    (⟨31, 0, "BTC", 1, 50000, 60000, 10000, "short", 31⟩ : CapitalGain) ∈
      (calculate_taxes emptyCalculator
        [mkBuyTx 0 "BTC" 1 50000 0, mkSellTx 31 "BTC" 1 60000 0]).1.capital_gains ∧
    ((⟨31, 0, "BTC", 1, 50000, 60000, 10000, "short", 31⟩ : CapitalGain).term = "long" ↔
      365 < (⟨31, 0, "BTC", 1, 50000, 60000, 10000, "short", 31⟩ : CapitalGain).holding_days) ∧
    termOf 365 = "short" ∧ termOf 366 = "long" := by
  have hmem : (⟨31, 0, "BTC", 1, 50000, 60000, 10000, "short", 31⟩ : CapitalGain) ∈
      (calculate_taxes emptyCalculator
        [mkBuyTx 0 "BTC" 1 50000 0, mkSellTx 31 "BTC" 1 60000 0]).1.capital_gains := by
    have he : (calculate_taxes emptyCalculator
        [mkBuyTx 0 "BTC" 1 50000 0, mkSellTx 31 "BTC" 1 60000 0]).1.capital_gains =
        [⟨31, 0, "BTC", 1, 50000, 60000, 10000, "short", 31⟩] := by
      norm_num [calculate_taxes, sortTransactions, orderedInsertTx, process_transaction,
        process_sell, process_buy, sellLoop, mkBuyTx, mkSellTx, mkTaxLot, mkCapitalGain,
        termOf, emptyCalculator, eps]
      simp
    rw [he]
    simp
  have h := claim_C6 emptyCalculator
    [mkBuyTx 0 "BTC" 1 50000 0, mkSellTx 31 "BTC" 1 60000 0] _ (Or.inl hmem)
  exact ⟨hmem, h.1, h.2.2.1, h.2.2.2⟩

/-- C4: matching a sell against the front lot takes the minimum of the
remaining amount and the lot remainder, emits one realized gain with
cost basis, proceeds and gain computed from that matched quantity,
decrements both amounts, removes the lot when its remainder drops below
1e-8; and on the concrete split batch Buy 0.5 at 40000, Buy 0.5 at 50000,
Sell 0.8 at 60000 it produces exactly the two expected records and one
remaining lot of 0.2. -/
theorem claim_C4 :
    (∀ (f : Nat) (sd sp : ℚ) (sym : String) (r : ℚ) (lot : TaxLot)
       (rest : List TaxLot) (gains : List CapitalGain) (errs : List TaxError),
       eps < r → lot.symbol = sym →
       sellLoop (f + 1) sd sp sym r ⟨lot :: rest, gains, errs⟩ =
         sellLoop f sd sp sym (r - min r lot.amount)
           ⟨(if lot.amount - min r lot.amount < eps then rest
             else { lot with amount := lot.amount - min r lot.amount } :: rest),
            gains ++ [mkCapitalGain sd lot.date sym (min r lot.amount)
              (min r lot.amount * lot.price_per_unit) (min r lot.amount * sp)
              (min r lot.amount * sp - min r lot.amount * lot.price_per_unit)
              (termOf ⌊sd - lot.date⌋)],
            errs⟩) ∧
    (calculate_taxes emptyCalculator splitBatch).2.capital_gains =
      some [⟨59, 0, "BTC", 1/2, 20000, 30000, 10000, "short", 59⟩,
            ⟨59, 31, "BTC", 3/10, 15000, 18000, 3000, "short", 28⟩] ∧
    (calculate_taxes emptyCalculator splitBatch).1.lots =
      [⟨31, 1/5, 1/2, 50000, "BTC", 25000⟩] ∧
    (calculate_taxes emptyCalculator splitBatch).2.num_transactions = 2 := by
  refine ⟨?_, ?_, ?_, ?_⟩
  · intro f sd sp sym r lot rest gains errs hr hs
    exact sellLoop_matched (not_le.2 hr) hs
  all_goals
    norm_num [calculate_taxes, sortTransactions, orderedInsertTx, process_transaction,
      process_sell, process_buy, sellLoop, generate_summary, splitBatch, mkBuyTx, mkSellTx,
      mkTaxLot, mkCapitalGain, termOf, emptyCalculator, eps]
  all_goals simp

/-- Witness for C4: the matching-step equation instantiated at the first
lot of the split batch. -/
theorem claim_C4_witness :
    eps < (4/5 : ℚ) ∧ (mkTaxLot 0 (1/2) 40000 "BTC").symbol = "BTC" ∧
    sellLoop (0 + 1) 59 60000 "BTC" (4/5)
        ⟨[mkTaxLot 0 (1/2) 40000 "BTC"], [], []⟩ =
      sellLoop 0 59 60000 "BTC" (4/5 - min (4/5) (1/2))
        ⟨(if (1/2 : ℚ) - min (4/5) (1/2) < eps then []
          else [{ mkTaxLot 0 (1/2) 40000 "BTC" with amount := 1/2 - min (4/5) (1/2) }]),
         [mkCapitalGain 59 0 "BTC" (min (4/5) (1/2))
            (min (4/5) (1/2) * 40000) (min (4/5) (1/2) * 60000)
            (min (4/5) (1/2) * 60000 - min (4/5) (1/2) * 40000)
            (termOf ⌊(59 : ℚ) - 0⌋)],
         []⟩ :=
  ⟨by norm_num [eps], rfl,
   claim_C4.1 0 59 60000 "BTC" (4/5) (mkTaxLot 0 (1/2) 40000 "BTC") [] [] []
     (by norm_num [eps]) rfl⟩

/-- Counterexample to C5 as stated: buy 1 BTC then sell 1 - 5e-9 BTC; no
anomaly is recorded, all lots are consumed, yet the matched total is
1 - 5e-9, so created amount differs from matched plus surviving plus
anomaly-lost (which is zero here): the sub-tolerance residue 5e-9 is
silently discarded. -/
theorem claim_C5_counterexample :
    (calculate_taxes emptyCalculator residueBatch).1.errors = [] ∧
    buySymAmount "BTC" residueBatch = 1 ∧
    gainSymAmount "BTC" (calculate_taxes emptyCalculator residueBatch).1.capital_gains =
      1 - 1/200000000 ∧
    symAmount "BTC" (calculate_taxes emptyCalculator residueBatch).1.lots = 0 ∧
    buySymAmount "BTC" residueBatch ≠
      gainSymAmount "BTC" (calculate_taxes emptyCalculator residueBatch).1.capital_gains +
        symAmount "BTC" (calculate_taxes emptyCalculator residueBatch).1.lots + 0 := by
  have he : (calculate_taxes emptyCalculator residueBatch).1 =
      ⟨[], [⟨10, 0, "BTC", 1 - 1/200000000, (1 - 1/200000000) * 50000,
             (1 - 1/200000000) * 60000, (1 - 1/200000000) * 60000 - (1 - 1/200000000) * 50000,
             "short", 10⟩], []⟩ := by
    norm_num [calculate_taxes, sortTransactions, orderedInsertTx, process_transaction,
      process_sell, process_buy, sellLoop, residueBatch, mkBuyTx, mkSellTx,
      mkTaxLot, mkCapitalGain, termOf, emptyCalculator, eps]
    simp
  rw [he]
  refine ⟨rfl, ?_, ?_, rfl, ?_⟩ <;>
    norm_num [buySymAmount, gainSymAmount, symAmount, residueBatch, mkBuyTx, mkSellTx,
      List.filter_cons]
  all_goals try simp
  all_goals try norm_num

/-- C5 (amended): per-symbol conservation holds once the two loss channels
of the code are accounted for: total bought equals total matched plus
surviving lot remainders plus amounts of lots evicted on symbol-mismatch
anomalies plus the sub-tolerance residues (each nonnegative and below
1e-8) silently discarded when a lot is removed; the instrumented run
agrees with the engine, and evicted lots correspond one-to-one with
recorded symbol-mismatch anomalies. -/
theorem claim_C5 (txs : List Transaction) (s : String) :
    buySymAmount s txs =
      gainSymAmount s (runAcct txs).engine.capital_gains
        + symAmount s (runAcct txs).engine.lots
        + symAmount s (runAcct txs).evicted
        + symAmount s (runAcct txs).discarded ∧
    (∀ l ∈ (runAcct txs).discarded, 0 ≤ l.amount ∧ l.amount < eps) ∧
    (runAcct txs).evicted.length =
      ((runAcct txs).engine.errors.filter isSymbolMismatchErr).length ∧
    (runAcct txs).engine = (calculate_taxes emptyCalculator txs).1 := by
  refine ⟨?_, runAcct_discarded_bound txs, runAcct_evicted_count txs,
    runAcct_engine emptyCalculator txs⟩
  have h := runAcct_total s txs
  rw [acctTotal] at h
  linarith [h]

end TaxCalc
